import Mathlib

/-
Verification of the index/resume/download reconciliation engine of the
DOJ dataset downloader (source file src/doj_2026.py, with the two older
scripts doj_rip.py and doj_fix_missing.py as historical context).

The embedding is shallow: dictionaries become association lists, the
filesystem becomes an association list from path to byte list, timestamps
are abstract naturals (the scripts only store wall-clock strings and never
inspect them), and the external collaborators (Lister, Fetcher,
SessionProvider) are parameters supplying their observable outputs.
-/

/-- Timestamps are abstract: the scripts store ISO wall-clock strings whose
value is never inspected, so the embedding uses a caller-supplied natural. -/
abbrev Timestamp := Nat

/-- One tracked remote file: the per-filename value in the index document
(doj_2026.py, `upsert_index_entry`, lines 238-249). -/
structure FileRecord where
  url : String
  first_seen : Timestamp
  last_seen : Timestamp
  page : Nat
  downloaded : Bool
  downloaded_at : Option Timestamp
  sha256 : Option String
  bytes : Option Nat
  attempts : Nat
  last_error : Option String
deriving Repr, DecidableEq

/-- The `files` mapping of an index document, as an insertion-ordered
association list (Python dict semantics: unique keys, new keys appended). -/
abbrev IndexFiles := List (String × FileRecord)

/-- Dictionary lookup on the `files` mapping. -/
def lookupFile : IndexFiles → String → Option FileRecord
  | [], _ => none
  | (k, v) :: rest, f => if k = f then some v else lookupFile rest f

/-- Dictionary assignment to an existing key (`files[filename] = ...` updates
the entry in place, preserving insertion order). -/
def updateFile : IndexFiles → String → FileRecord → IndexFiles
  | [], _, _ => []
  | (k, v) :: rest, f, r => if k = f then (k, r) :: rest else (k, v) :: updateFile rest f r

/-- The keys of the `files` mapping, in insertion order. -/
def keysOf (files : IndexFiles) : List String := files.map Prod.fst

/-- The FileRecord created for a filename never seen before
(doj_2026.py lines 238-249). -/
def mkFileRecord (url : String) (now : Timestamp) (page_num : Nat) : FileRecord :=
  { url := url
    first_seen := now
    last_seen := now
    page := page_num
    downloaded := false
    downloaded_at := none
    sha256 := none
    bytes := none
    attempts := 0
    last_error := none }

/-- `upsert_index_entry` (doj_2026.py lines 230-256): create a fresh record
and return true for an unseen filename; otherwise update only url,
last_seen and page and return false. -/
def upsert_index_entry (files : IndexFiles) (filename url : String) (page_num : Nat)
    (now : Timestamp) : IndexFiles × Bool :=
  match lookupFile files filename with
  | none => (files ++ [(filename, mkFileRecord url now page_num)], true)
  | some r =>
      (updateFile files filename { r with url := url, last_seen := now, page := page_num },
       false)

-- Association-list lemmas used throughout.

theorem lookupFile_eq_none_iff (files : IndexFiles) (g : String) :
    lookupFile files g = none ↔ g ∉ keysOf files := by
  induction files with
  | nil => simp [lookupFile, keysOf]
  | cons kv rest ih =>
    obtain ⟨k, v⟩ := kv
    by_cases h : k = g
    · subst h
      simp [lookupFile, keysOf]
    · simp [lookupFile, keysOf, h, Ne.symm h]
      simpa [keysOf] using ih

theorem keysOf_updateFile (files : IndexFiles) (f : String) (r : FileRecord) :
    keysOf (updateFile files f r) = keysOf files := by
  induction files with
  | nil => rfl
  | cons kv rest ih =>
    obtain ⟨k, v⟩ := kv
    by_cases h : k = f
    · simp [updateFile, h, keysOf]
    · simp [updateFile, h, keysOf] at ih ⊢
      exact ih

theorem lookupFile_updateFile_self (files : IndexFiles) (f : String) (r : FileRecord)
    (h : lookupFile files f ≠ none) :
    lookupFile (updateFile files f r) f = some r := by
  induction files with
  | nil => simp [lookupFile] at h
  | cons kv rest ih =>
    obtain ⟨k, v⟩ := kv
    by_cases hk : k = f
    · simp [updateFile, lookupFile, hk]
    · simp [updateFile, lookupFile, hk] at h ⊢
      exact ih h

theorem lookupFile_updateFile_ne (files : IndexFiles) (f g : String) (r : FileRecord)
    (h : g ≠ f) :
    lookupFile (updateFile files f r) g = lookupFile files g := by
  induction files with
  | nil => rfl
  | cons kv rest ih =>
    obtain ⟨k, v⟩ := kv
    by_cases hk : k = f
    · subst hk
      simp [updateFile, lookupFile, Ne.symm h]
    · simp only [updateFile, if_neg hk, lookupFile]
      by_cases hg : k = g
      · simp [hg]
      · simp [hg, ih]

theorem lookupFile_append_self (files : IndexFiles) (f : String) (r : FileRecord)
    (h : lookupFile files f = none) :
    lookupFile (files ++ [(f, r)]) f = some r := by
  induction files with
  | nil => simp [lookupFile]
  | cons kv rest ih =>
    obtain ⟨k, v⟩ := kv
    by_cases hk : k = f
    · simp [lookupFile, hk] at h
    · simp [lookupFile, hk] at h ⊢
      exact ih h

theorem lookupFile_append_ne (files : IndexFiles) (f g : String) (r : FileRecord)
    (h : g ≠ f) :
    lookupFile (files ++ [(f, r)]) g = lookupFile files g := by
  induction files with
  | nil => simp [lookupFile, Ne.symm h]
  | cons kv rest ih =>
    obtain ⟨k, v⟩ := kv
    by_cases hk : k = g
    · simp [lookupFile, hk]
    · simp [lookupFile, hk, ih]

/-- Every upsert leaves the stored record for the upserted filename with
url and page equal to the arguments and last_seen equal to the clock. -/
theorem upsert_lookup_self (files : IndexFiles) (f u : String) (p : Nat) (now : Timestamp) :
    ∃ r1, lookupFile (upsert_index_entry files f u p now).1 f = some r1 ∧
      r1.url = u ∧ r1.page = p ∧ r1.last_seen = now := by
  cases h : lookupFile files f with
  | none =>
    refine ⟨mkFileRecord u now p, ?_, rfl, rfl, rfl⟩
    simp only [upsert_index_entry, h]
    exact lookupFile_append_self files f _ h
  | some r =>
    refine ⟨{ r with url := u, last_seen := now, page := p }, ?_, rfl, rfl, rfl⟩
    simp only [upsert_index_entry, h]
    exact lookupFile_updateFile_self files f _ (by simp [h])

/-- Claim C6: upsert creates a `downloaded := false`, zero-attempt record and
returns true for an unseen filename; for a seen filename it updates only
url, last_seen and page, preserves every other field, and returns false;
upserting the same (filename, url, page) twice changes nothing but
last_seen, touches no other entry, and never duplicates keys. -/
theorem upsert_semantics (files : IndexFiles) (f u : String) (p : Nat) (now : Timestamp)
    (hnodup : (keysOf files).Nodup) :
    (lookupFile files f = none →
      (upsert_index_entry files f u p now).2 = true ∧
      lookupFile (upsert_index_entry files f u p now).1 f = some (mkFileRecord u now p) ∧
      (mkFileRecord u now p).downloaded = false ∧ (mkFileRecord u now p).attempts = 0) ∧
    (∀ r, lookupFile files f = some r →
      (upsert_index_entry files f u p now).2 = false ∧
      lookupFile (upsert_index_entry files f u p now).1 f =
        some { r with url := u, last_seen := now, page := p }) ∧
    (keysOf (upsert_index_entry files f u p now).1).Nodup ∧
    (∀ now2 : Timestamp,
      (upsert_index_entry (upsert_index_entry files f u p now).1 f u p now2).2 = false ∧
      lookupFile (upsert_index_entry (upsert_index_entry files f u p now).1 f u p now2).1 f =
        (lookupFile (upsert_index_entry files f u p now).1 f).map
          (fun r => { r with last_seen := now2 }) ∧
      (∀ g, g ≠ f →
        lookupFile (upsert_index_entry (upsert_index_entry files f u p now).1 f u p now2).1 g =
          lookupFile (upsert_index_entry files f u p now).1 g) ∧
      keysOf (upsert_index_entry (upsert_index_entry files f u p now).1 f u p now2).1 =
        keysOf (upsert_index_entry files f u p now).1) := by
  refine ⟨?_, ?_, ?_, ?_⟩
  · intro h
    refine ⟨by simp [upsert_index_entry, h], ?_, rfl, rfl⟩
    simp only [upsert_index_entry, h]
    exact lookupFile_append_self files f _ h
  · intro r h
    refine ⟨by simp [upsert_index_entry, h], ?_⟩
    simp only [upsert_index_entry, h]
    exact lookupFile_updateFile_self files f _ (by simp [h])
  · cases h : lookupFile files f with
    | none =>
      simp only [upsert_index_entry, h, keysOf, List.map_append, List.map_cons, List.map_nil]
      refine List.Nodup.append hnodup (List.nodup_singleton f) ?_
      intro a ha hb
      rw [List.mem_singleton] at hb
      subst hb
      exact ((lookupFile_eq_none_iff files a).mp h) ha
    | some r =>
      simp only [upsert_index_entry, h]
      rw [show keysOf (updateFile files f { r with url := u, last_seen := now, page := p }) =
            keysOf files from keysOf_updateFile files f _]
      exact hnodup
  · intro now2
    obtain ⟨r1, hr1, hu, hp, _⟩ := upsert_lookup_self files f u p now
    set F1 := (upsert_index_entry files f u p now).1 with hF1
    have hfix : ({ r1 with url := u, last_seen := now2, page := p } : FileRecord) =
        { r1 with last_seen := now2 } := by
      cases r1
      simp only at hu hp
      subst hu
      subst hp
      rfl
    refine ⟨?_, ?_, ?_, ?_⟩
    · simp only [upsert_index_entry, hr1]
    · simp only [upsert_index_entry, hr1, Option.map_some]
      rw [hfix]
      exact lookupFile_updateFile_self F1 f _ (by simp [hr1])
    · intro g hg
      simp only [upsert_index_entry, hr1]
      exact lookupFile_updateFile_ne F1 f g _ hg
    · simp only [upsert_index_entry, hr1]
      exact keysOf_updateFile F1 f _

/-- Concrete instance of the upsert theorem. -/
theorem upsert_semantics_witness :
    (upsert_index_entry [] "EFTA00000001.pdf" "u1" 4 10).2 = true ∧
    lookupFile (upsert_index_entry [] "EFTA00000001.pdf" "u1" 4 10).1 "EFTA00000001.pdf" =
      some (mkFileRecord "u1" 10 4) ∧
    (mkFileRecord "u1" 10 4).downloaded = false ∧ (mkFileRecord "u1" 10 4).attempts = 0 :=
  (upsert_semantics [] "EFTA00000001.pdf" "u1" 4 10 List.nodup_nil).1 rfl

-- ==================== Configuration constants (doj_2026.py lines 44-49) ====================

/-- Stop after this many consecutive pages with no new PDFs (line 45). -/
def MAX_PAGES_WITH_NO_NEW_PDFS : Nat := 6

/-- Safety valve against infinite loops (line 46). -/
def MAX_PAGES_HARD_CAP : Nat := 200000

/-- Retry budget per file (line 49). -/
def MAX_DOWNLOAD_RETRIES : Nat := 3

/-- Numeric value of a digit run. -/
def digitsVal (l : List Char) : Nat := l.foldl (fun acc c => acc * 10 + (c.toNat - 48)) 0

/-- `extract_file_num` (doj_2026.py lines 196-200): anchored, case-insensitive
match of `EFTA0*(digits).pdf`; the value is the digit run read as a number.
A name matches exactly when, lowercased, it is "efta", then at least one
digit, then ".pdf". -/
def extract_file_num (filename : String) : Option Nat :=
  let cs := filename.toList.map Char.toLower
  if 9 ≤ cs.length then
    if cs.take 4 == ['e', 'f', 't', 'a'] &&
        cs.drop (cs.length - 4) == ['.', 'p', 'd', 'f'] &&
        ((cs.drop 4).take (cs.length - 8)).all Char.isDigit then
      some (digitsVal ((cs.drop 4).take (cs.length - 8)))
    else none
  else none

-- ==================== Download reconciler, per-file step ====================

/-- Result of one authenticated Fetcher call: HTTP status and body bytes. -/
structure FetchResult where
  status : Nat
  body : List Nat
deriving Repr, DecidableEq

/-- `needs_download` (doj_2026.py lines 259-268), with the filesystem probe
`os.path.exists(out_path)` passed in as a boolean. -/
def needs_download (out_path_exists : Bool) (entry : FileRecord) : Bool :=
  if entry.downloaded && out_path_exists then false
  else if out_path_exists && !entry.downloaded then false
  else true

/-- What the reconciler loop did for one file record. -/
inductive FileAction
  | skipped_non_efta
  | reconciled
  | skipped_downloaded
  | skipped_budget
  | fetched_ok
  | fetched_fail
deriving Repr, DecidableEq

/-- Outcome of one iteration of the reconciler loop for one file:
the updated record, what happened, whether the Fetcher was called, and
whether the index was persisted during the iteration. -/
structure StepResult where
  entry : FileRecord
  action : FileAction
  fetched : Bool
  saved : Bool
deriving Repr, DecidableEq

/-- One iteration of the `download_missing_from_index` loop body for one
file (doj_2026.py lines 384-437): skip non-EFTA names; reconcile an
existing local file that is not marked downloaded (no fetch); skip when
`needs_download` is false; skip when the attempt budget is exhausted;
otherwise charge one attempt, fetch, and record success or the error.
`out_path_exists` is the `os.path.exists(out_path)` probe, `localSize` the
size of the existing local file, `resp` the Fetcher response used by
`download_one` (line 287: success is exactly status 200). -/
def process_file (filename : String) (entry : FileRecord) (out_path_exists : Bool)
    (localSize : Nat) (resp : FetchResult) (now : Timestamp) : StepResult :=
  if extract_file_num filename = none then
    ⟨entry, .skipped_non_efta, false, false⟩
  else if out_path_exists && !entry.downloaded then
    ⟨{ entry with downloaded := true, downloaded_at := some now, bytes := some localSize },
      .reconciled, false, true⟩
  else if !(needs_download out_path_exists entry) then
    ⟨entry, .skipped_downloaded, false, false⟩
  else if MAX_DOWNLOAD_RETRIES ≤ entry.attempts then
    ⟨entry, .skipped_budget, false, false⟩
  else
    let charged := { entry with attempts := entry.attempts + 1 }
    if resp.status = 200 then
      ⟨{ charged with
          downloaded := true
          downloaded_at := some now
          last_error := none
          bytes := some resp.body.length },
        .fetched_ok, true, true⟩
    else
      ⟨{ charged with last_error := some ("HTTP " ++ toString resp.status) },
        .fetched_fail, true, true⟩

/-- Shared step lemma: for an EFTA-named record that is not downloaded, has
budget left, and whose local file is absent, a non-200 response charges one
attempt and records the error string (doj_2026.py lines 406-437). -/
theorem process_file_fail_step (filename : String) (entry : FileRecord) (s : Nat)
    (body : List Nat) (localSize : Nat) (now : Timestamp)
    (hefta : extract_file_num filename ≠ none) (hs : s ≠ 200)
    (hnd : entry.downloaded = false) (hba : entry.attempts < MAX_DOWNLOAD_RETRIES) :
    process_file filename entry false localSize ⟨s, body⟩ now =
      ⟨{ entry with
          attempts := entry.attempts + 1
          last_error := some ("HTTP " ++ toString s) },
        FileAction.fetched_fail, true, true⟩ := by
  have hnn : ¬ (MAX_DOWNLOAD_RETRIES ≤ entry.attempts) := by omega
  simp [process_file, hefta, hnd, needs_download, hnn, hs]

/-- Shared step lemma: when the local file is absent and the attempt budget
is exhausted, the file is skipped without fetching (doj_2026.py line 406). -/
theorem process_file_budget_skip (filename : String) (entry : FileRecord)
    (localSize : Nat) (resp : FetchResult) (now : Timestamp)
    (hefta : extract_file_num filename ≠ none)
    (hge : MAX_DOWNLOAD_RETRIES ≤ entry.attempts) :
    process_file filename entry false localSize resp now =
      ⟨entry, FileAction.skipped_budget, false, false⟩ := by
  simp [process_file, hefta, needs_download, hge]

/-- Claim C8: an EFTA record whose local file exists but which is not marked
downloaded is reconciled: marked downloaded, stamped, sized, the index is
persisted, and the Fetcher is never called (the response argument is
arbitrary and unused). -/
theorem reconcile_existing_file (filename : String) (entry : FileRecord) (localSize : Nat)
    (resp : FetchResult) (now : Timestamp)
    (hefta : extract_file_num filename ≠ none)
    (hnot : entry.downloaded = false) :
    process_file filename entry true localSize resp now =
      ⟨{ entry with downloaded := true, downloaded_at := some now, bytes := some localSize },
        FileAction.reconciled, false, true⟩ := by
  simp [process_file, hefta, hnot]

/-- Concrete instance of the reconciliation theorem. -/
theorem reconcile_existing_file_witness :
    process_file "EFTA00000002.pdf" (mkFileRecord "u2" 0 3) true 4096 ⟨200, [1]⟩ 9 =
      ⟨{ mkFileRecord "u2" 0 3 with downloaded := true, downloaded_at := some 9, bytes := some 4096 },
        FileAction.reconciled, false, true⟩ :=
  reconcile_existing_file "EFTA00000002.pdf" (mkFileRecord "u2" 0 3) 4096 ⟨200, [1]⟩ 9
    (by decide) rfl

/-- Claim C10: a record marked downloaded whose local file is absent is
treated as needing download: with budget left the Fetcher is called and the
attempt counter charged; with the budget exhausted it is skipped for that
reason, not because of the downloaded flag. -/
theorem missing_file_redownload (filename : String) (entry : FileRecord) (resp : FetchResult)
    (localSize : Nat) (now : Timestamp)
    (hefta : extract_file_num filename ≠ none)
    (hmarked : entry.downloaded = true) :
    needs_download false entry = true ∧
    (entry.attempts < MAX_DOWNLOAD_RETRIES →
      (process_file filename entry false localSize resp now).fetched = true ∧
      (process_file filename entry false localSize resp now).entry.attempts =
        entry.attempts + 1) ∧
    (MAX_DOWNLOAD_RETRIES ≤ entry.attempts →
      process_file filename entry false localSize resp now =
        ⟨entry, FileAction.skipped_budget, false, false⟩) := by
  refine ⟨?_, ?_, ?_⟩
  · simp [needs_download, hmarked]
  · intro hlt
    have hnn : ¬ (MAX_DOWNLOAD_RETRIES ≤ entry.attempts) := by omega
    by_cases hst : resp.status = 200 <;>
      simp [process_file, hefta, hmarked, needs_download, hnn, hst]
  · intro hge
    exact process_file_budget_skip filename entry localSize resp now hefta hge

/-- Concrete instance of the redownload theorem. -/
theorem missing_file_redownload_witness :
    needs_download false { mkFileRecord "u4" 0 1 with downloaded := true } = true ∧
    (process_file "EFTA00000004.pdf" { mkFileRecord "u4" 0 1 with downloaded := true }
        false 0 ⟨200, [7]⟩ 5).fetched = true := by
  have h := missing_file_redownload "EFTA00000004.pdf"
    { mkFileRecord "u4" 0 1 with downloaded := true } ⟨200, [7]⟩ 0 5 (by decide) rfl
  exact ⟨h.1, (h.2.1 (by decide)).1⟩

/-- Claim C2 counterexample: an HTTP 401 response does consume the retry
budget (attempts go from 0 to 1) and is handled exactly like an HTTP 500:
same action, the error string recorded on the record; no renewal path
exists in `download_missing_from_index`. -/
theorem auth_failure_counterexample :
    (mkFileRecord "u" 0 1).attempts = 0 ∧
    (process_file "EFTA00000001.pdf" (mkFileRecord "u" 0 1) false 0 ⟨401, []⟩ 1).entry.attempts
      = 1 ∧
    (process_file "EFTA00000001.pdf" (mkFileRecord "u" 0 1) false 0 ⟨401, []⟩ 1).entry.last_error
      = some "HTTP 401" ∧
    (process_file "EFTA00000001.pdf" (mkFileRecord "u" 0 1) false 0 ⟨401, []⟩ 1).action =
      (process_file "EFTA00000001.pdf" (mkFileRecord "u" 0 1) false 0 ⟨500, []⟩ 1).action := by
  decide

/-- Claim C2 as amended: a non-success status, 401 included, is an ordinary
failure: the attempt is charged against the budget, the error string is
recorded, the index is persisted, and no session renewal or immediate
retry happens in this pass. -/
theorem auth_failure_ordinary (filename : String) (entry : FileRecord) (s : Nat)
    (body : List Nat) (localSize : Nat) (now : Timestamp)
    (hefta : extract_file_num filename ≠ none) (hs : s ≠ 200)
    (hnd : entry.downloaded = false) (hba : entry.attempts < MAX_DOWNLOAD_RETRIES) :
    process_file filename entry false localSize ⟨s, body⟩ now =
      ⟨{ entry with
          attempts := entry.attempts + 1
          last_error := some ("HTTP " ++ toString s) },
        FileAction.fetched_fail, true, true⟩ :=
  process_file_fail_step filename entry s body localSize now hefta hs hnd hba

/-- Concrete instance of the amended authorization-failure theorem. -/
theorem auth_failure_ordinary_witness :
    process_file "EFTA00000001.pdf" (mkFileRecord "u" 0 1) false 0 ⟨401, []⟩ 1 =
      ⟨{ mkFileRecord "u" 0 1 with attempts := 1, last_error := some "HTTP 401" },
        FileAction.fetched_fail, true, true⟩ := by
  rw [auth_failure_ordinary "EFTA00000001.pdf" (mkFileRecord "u" 0 1) 401 [] 0 1
    (by decide) (by decide) rfl (by decide)]
  decide

/-- Repeated reconciler passes over one file that is never present locally:
each run processes the file once with the next response status, feeding the
persisted record (saved at lines 431/436) into the following run. -/
def failing_runs (filename : String) (now : Timestamp) :
    List Nat → FileRecord → FileRecord × Nat
  | [], r => (r, 0)
  | s :: rest, r =>
      let step := process_file filename r false 0 ⟨s, []⟩ now
      let res := failing_runs filename now rest step.entry
      (res.1, (if step.fetched then 1 else 0) + res.2)

/-- Invariant of repeated failing passes: the fetch count and the attempt
counter both saturate at the retry budget. -/
theorem failing_runs_spec (filename : String) (now : Timestamp)
    (hefta : extract_file_num filename ≠ none) :
    ∀ (ss : List Nat), (∀ s ∈ ss, s ≠ 200) → ∀ (r : FileRecord),
      r.downloaded = false → r.attempts ≤ MAX_DOWNLOAD_RETRIES →
      (failing_runs filename now ss r).2 =
        min ss.length (MAX_DOWNLOAD_RETRIES - r.attempts) ∧
      (failing_runs filename now ss r).1.attempts =
        min (r.attempts + ss.length) MAX_DOWNLOAD_RETRIES ∧
      (failing_runs filename now ss r).1.downloaded = false := by
  intro ss
  induction ss with
  | nil =>
    intro _ r hdl hle
    refine ⟨by simp [failing_runs], ?_, by simpa [failing_runs] using hdl⟩
    simp only [failing_runs, List.length_nil]
    omega
  | cons s rest ih =>
    intro hss r hdl hle
    have hrest : ∀ t ∈ rest, t ≠ 200 := fun t ht => hss t (List.mem_cons_of_mem s ht)
    by_cases hlt : r.attempts < MAX_DOWNLOAD_RETRIES
    · have hstep := process_file_fail_step filename r s [] 0 now hefta
        (hss s (List.mem_cons_self s rest)) hdl hlt
      have hrec := ih hrest
        { r with
            attempts := r.attempts + 1
            last_error := some ("HTTP " ++ toString s) }
        hdl (by show r.attempts + 1 ≤ MAX_DOWNLOAD_RETRIES; omega)
      obtain ⟨h1, h2, h3⟩ := hrec
      refine ⟨?_, ?_, ?_⟩
      · simp only [failing_runs, hstep, List.length_cons]
        rw [h1]
        show 1 + min rest.length (MAX_DOWNLOAD_RETRIES - (r.attempts + 1)) =
          min (rest.length + 1) (MAX_DOWNLOAD_RETRIES - r.attempts)
        omega
      · simp only [failing_runs, hstep, List.length_cons]
        rw [h2]
        show min (r.attempts + 1 + rest.length) MAX_DOWNLOAD_RETRIES =
          min (r.attempts + (rest.length + 1)) MAX_DOWNLOAD_RETRIES
        omega
      · simpa only [failing_runs, hstep] using h3
    · have hge : MAX_DOWNLOAD_RETRIES ≤ r.attempts := by omega
      have hstep := process_file_budget_skip filename r 0 ⟨s, []⟩ now hefta hge
      have hrec := ih hrest r hdl hle
      obtain ⟨h1, h2, h3⟩ := hrec
      refine ⟨?_, ?_, ?_⟩
      · simp only [failing_runs, hstep, List.length_cons]
        rw [h1]
        show 0 + min rest.length (MAX_DOWNLOAD_RETRIES - r.attempts) =
          min (rest.length + 1) (MAX_DOWNLOAD_RETRIES - r.attempts)
        omega
      · simp only [failing_runs, hstep, List.length_cons]
        rw [h2]
        show min (r.attempts + rest.length) MAX_DOWNLOAD_RETRIES =
          min (r.attempts + (rest.length + 1)) MAX_DOWNLOAD_RETRIES
        omega
      · simpa only [failing_runs, hstep] using h3

/-- Claim C3: a fresh record whose downloads always fail with a non-success
status is fetched exactly min(runs, budget) times — never more than the
budget of 3, and exactly 3 once at least 3 runs happen; the persisted
attempt counter tracks this; a record at or over budget is skipped without
fetching; and the counter is charged even on a failed attempt. -/
theorem attempt_bound_exact (filename : String) (now : Timestamp) (ss : List Nat)
    (entry : FileRecord)
    (hefta : extract_file_num filename ≠ none)
    (hfail : ∀ s ∈ ss, s ≠ 200)
    (hfresh : entry.attempts = 0) (hnd : entry.downloaded = false) :
    (failing_runs filename now ss entry).2 = min ss.length MAX_DOWNLOAD_RETRIES ∧
    (failing_runs filename now ss entry).2 ≤ MAX_DOWNLOAD_RETRIES ∧
    (MAX_DOWNLOAD_RETRIES ≤ ss.length →
      (failing_runs filename now ss entry).2 = MAX_DOWNLOAD_RETRIES) ∧
    (failing_runs filename now ss entry).1.attempts =
      min ss.length MAX_DOWNLOAD_RETRIES ∧
    (∀ (r : FileRecord) (s2 : Nat) (body2 : List Nat),
      MAX_DOWNLOAD_RETRIES ≤ r.attempts →
      process_file filename r false 0 ⟨s2, body2⟩ now =
        ⟨r, FileAction.skipped_budget, false, false⟩) ∧
    (∀ (r : FileRecord) (s2 : Nat) (body2 : List Nat),
      r.downloaded = false → r.attempts < MAX_DOWNLOAD_RETRIES → s2 ≠ 200 →
      (process_file filename r false 0 ⟨s2, body2⟩ now).entry.attempts = r.attempts + 1) := by
  obtain ⟨h1, h2, _⟩ := failing_runs_spec filename now hefta ss hfail entry hnd
    (by omega)
  refine ⟨?_, ?_, ?_, ?_, ?_, ?_⟩
  · rw [h1, hfresh]
    omega
  · rw [h1, hfresh]
    omega
  · intro hlen
    rw [h1, hfresh]
    omega
  · rw [h2, hfresh]
    simp
  · intro r s2 body2 hge
    exact process_file_budget_skip filename r 0 ⟨s2, body2⟩ now hefta hge
  · intro r s2 body2 hdl2 hlt2 hs2
    rw [process_file_fail_step filename r s2 body2 0 now hefta hs2 hdl2 hlt2]

/-- Concrete instance: four always-failing runs fetch exactly 3 times. -/
theorem attempt_bound_exact_witness :
    (failing_runs "EFTA00000003.pdf" 2 [500, 503, 404, 500] (mkFileRecord "u3" 0 2)).2 = 3 ∧
    (failing_runs "EFTA00000003.pdf" 2 [500, 503, 404, 500]
      (mkFileRecord "u3" 0 2)).1.attempts = 3 := by
  have h := attempt_bound_exact "EFTA00000003.pdf" 2 [500, 503, 404, 500]
    (mkFileRecord "u3" 0 2) (by decide) (by intro s hs; fin_cases hs <;> decide) rfl rfl
  exact ⟨h.1.trans (by decide), h.2.2.2.1.trans (by decide)⟩

-- ==================== Resume tracker and starting page ====================

/-- `load_resume_page` (doj_2026.py lines 97-105): the resume file contents
parsed as an integer, modelled as `Option Int` (`none` when the file is
missing or unreadable); parsed values below 1 are rejected. -/
def load_resume_page (contents : Option Int) : Option Int :=
  match contents with
  | none => none
  | some n => if 1 ≤ n then some n else none

/-- Python `or` applied to an optional integer: `None` and `0` are falsy. -/
def pyOrInt (x : Option Int) (y : Int) : Int :=
  match x with
  | none => y
  | some n => if n = 0 then y else n

/-- The scan's starting page (doj_2026.py line 302):
`resume_page or max(1, int(idx["meta"].get("last_scan_page", 0)) or 1)`. -/
def start_page (resume_page : Option Int) (last_scan_page : Int) : Int :=
  pyOrInt resume_page (max 1 (if last_scan_page = 0 then 1 else last_scan_page))

/-- Claim C1 counterexample: with resume marker 3 and last-scanned-page 10
the scan starts at 3, not at the maximum 10 as the claim states. -/
theorem start_page_not_max :
    start_page (load_resume_page (some 3)) 10 = 3 ∧
    (3 : Int) < 10 ∧ max (3 : Int) 10 = 10 := by
  decide

/-- Claim C1 as amended: a valid resume marker (value at least 1) alone
governs the starting page, regardless of the index's last-scanned-page;
only with no valid marker does the last-scanned-page govern (when at least
1), and the start falls back to page 1 when it too is absent or below 1. -/
theorem start_page_resume_priority (c : Option Int) (lsp : Int) :
    (∀ n : Int, c = some n → 1 ≤ n → start_page (load_resume_page c) lsp = n) ∧
    (load_resume_page c = none → 1 ≤ lsp → start_page (load_resume_page c) lsp = lsp) ∧
    (load_resume_page c = none → lsp < 1 → start_page (load_resume_page c) lsp = 1) := by
  refine ⟨?_, ?_, ?_⟩
  · intro n hc hn
    subst hc
    have hne : ¬ (n = 0) := by omega
    simp [load_resume_page, start_page, pyOrInt, hn, hne]
  · intro h0 hlsp
    rw [h0]
    have hne : ¬ (lsp = 0) := by omega
    simp only [start_page, pyOrInt, if_neg hne]
    omega
  · intro h0 hlsp
    rw [h0]
    by_cases hz : lsp = 0 <;> simp only [start_page, pyOrInt, if_pos, hz, if_neg] <;> omega

/-- Concrete instance of the amended starting-page theorem. -/
theorem start_page_resume_priority_witness :
    start_page (load_resume_page (some 7)) 3 = 7 :=
  (start_page_resume_priority (some 7) 3).1 7 rfl (by decide)

-- ==================== Page scanner ====================

/-- The Lister collaborator plus the link filter (doj_2026.py lines 320-334):
for each page number, the `(filename, full_url)` pairs surviving
`is_valid_epstein_pdf_url` and basename extraction. -/
structure ScanEnv where
  pdfsOnPage : Nat → List (String × String)

/-- Persisted scanning state: the files mapping, the resume-state file
contents, and the index meta fields touched by the scan. -/
structure ScanState where
  files : IndexFiles
  resume_file : Option Nat
  last_scan_page : Nat
  last_scan_at : Option Timestamp
deriving Repr, DecidableEq

/-- Persistence-relevant effects of the scan loop, in program order.
`fetch_page` records the resume-file contents at the moment the page is
loaded (the point where an interruption can strike mid-page). -/
inductive ScanEvent
  | save_resume (p : Nat)
  | fetch_page (p : Nat) (marker : Option Nat)
  | save_index (p : Nat)
deriving Repr, DecidableEq

/-- Why the scan loop ended. -/
inductive StopReason
  | hard_cap
  | streak_stop
  | fuel_out
deriving Repr, DecidableEq

/-- Outcome of a scan: final state, effect trace, pages fully processed,
and the stop reason. -/
structure ScanResult where
  state : ScanState
  trace : List ScanEvent
  pagesProcessed : List Nat
  reason : StopReason
deriving Repr, DecidableEq

/-- The per-page upsert sweep (doj_2026.py lines 338-344): non-EFTA names
are ignored; each remaining candidate is upserted and the new ones counted. -/
def upsertAll (files : IndexFiles) (page_num : Nat) (now : Timestamp) :
    List (String × String) → IndexFiles × Nat
  | [] => (files, 0)
  | (filename, full_url) :: rest =>
      if extract_file_num filename = none then
        upsertAll files page_num now rest
      else
        let res := upsert_index_entry files filename full_url page_num now
        let r2 := upsertAll res.1 page_num now rest
        (r2.1, (if res.2 then 1 else 0) + r2.2)

/-- The scan loop of `scan_dataset_pages` (doj_2026.py lines 309-365):
per iteration it checks the hard cap, writes the resume marker, loads the
page, upserts candidates, updates the streak of pages with no new PDFs,
updates the meta fields, saves the index, and stops once the streak
reaches the threshold. Fuel only bounds the recursion; the canonical call
in `scan_dataset_pages` supplies more fuel than the hard cap ever allows
to be consumed. -/
def scanLoop (env : ScanEnv) (now : Timestamp) :
    Nat → ScanState → Nat → Nat → ScanResult
  | 0, st, _, _ => ⟨st, [], [], .fuel_out⟩
  | fuel + 1, st, page_num, pages_no_new =>
      if MAX_PAGES_HARD_CAP < page_num then ⟨st, [], [], .hard_cap⟩
      else
        let st1 := { st with resume_file := some page_num }
        let ua := upsertAll st1.files page_num now (env.pdfsOnPage page_num)
        let streak2 := if ua.2 = 0 then pages_no_new + 1 else 0
        let st2 := { st1 with
          files := ua.1
          last_scan_at := some now
          last_scan_page := page_num }
        let evs := [ScanEvent.save_resume page_num,
                    ScanEvent.fetch_page page_num st1.resume_file,
                    ScanEvent.save_index page_num]
        if MAX_PAGES_WITH_NO_NEW_PDFS ≤ streak2 then
          ⟨st2, evs, [page_num], .streak_stop⟩
        else
          let r := scanLoop env now fuel st2 (page_num + 1) streak2
          ⟨r.state, evs ++ r.trace, page_num :: r.pagesProcessed, r.reason⟩

/-- `scan_dataset_pages` entry (doj_2026.py lines 296-309): compute the
starting page from the resume file and the index meta, then run the loop
with a zero streak. -/
def scan_dataset_pages (env : ScanEnv) (now : Timestamp) (resumeContents : Option Int)
    (st : ScanState) : ScanResult :=
  scanLoop env now (MAX_PAGES_HARD_CAP + 1) st
    (start_page (load_resume_page resumeContents) (Int.ofNat st.last_scan_page)).toNat 0

/-- A page whose EFTA candidates are all already indexed contributes zero
new upserts and leaves the key set unchanged. -/
theorem upsertAll_quiet (page_num : Nat) (now : Timestamp) :
    ∀ (pdfs : List (String × String)) (files : IndexFiles),
      (∀ fu ∈ pdfs, extract_file_num fu.1 ≠ none → lookupFile files fu.1 ≠ none) →
      (upsertAll files page_num now pdfs).2 = 0 ∧
      keysOf (upsertAll files page_num now pdfs).1 = keysOf files := by
  intro pdfs
  induction pdfs with
  | nil => intro files _; exact ⟨rfl, rfl⟩
  | cons hd rest ih =>
    intro files hq
    obtain ⟨f, u⟩ := hd
    by_cases he : extract_file_num f = none
    · simp only [upsertAll, if_pos he]
      exact ih files fun g hg => hq g (List.mem_cons_of_mem _ hg)
    · have hl : lookupFile files f ≠ none := hq (f, u) (List.mem_cons_self _ _) he
      obtain ⟨r, hr⟩ := Option.ne_none_iff_exists'.mp hl
      have hkeys : keysOf (updateFile files f
          { r with url := u, last_seen := now, page := page_num }) = keysOf files :=
        keysOf_updateFile files f _
      have hih := ih (updateFile files f
          { r with url := u, last_seen := now, page := page_num })
        (by
          intro g hg hge
          rw [Ne, lookupFile_eq_none_iff, hkeys, ← lookupFile_eq_none_iff]
          exact hq g (List.mem_cons_of_mem _ hg) hge)
      simp only [upsertAll, if_neg he, upsert_index_entry, hr]
      refine ⟨by simpa using hih.1, by simpa [hkeys] using hih.2⟩

/-- A page carrying at least one EFTA candidate that is not yet indexed
contributes at least one new upsert. -/
theorem upsertAll_of_new (page_num : Nat) (now : Timestamp) :
    ∀ (pdfs : List (String × String)) (files : IndexFiles),
      (∃ fu ∈ pdfs, extract_file_num fu.1 ≠ none ∧ lookupFile files fu.1 = none) →
      (upsertAll files page_num now pdfs).2 ≠ 0 := by
  intro pdfs
  induction pdfs with
  | nil =>
    intro files h
    obtain ⟨fu, hmem, _⟩ := h
    cases hmem
  | cons hd rest ih =>
    intro files h
    obtain ⟨fu, hmem, hef, hlk⟩ := h
    obtain ⟨f, u⟩ := hd
    by_cases he : extract_file_num f = none
    · rcases List.mem_cons.mp hmem with heq | hmem2
      · subst heq
        exact absurd he hef
      · simp only [upsertAll, if_pos he]
        exact ih files ⟨fu, hmem2, hef, hlk⟩
    · cases hl : lookupFile files f with
      | none =>
        simp only [upsertAll, if_neg he, upsert_index_entry, hl]
        simp
      | some r =>
        rcases List.mem_cons.mp hmem with heq | hmem2
        · subst heq
          rw [hlk] at hl
          cases hl
        · have htrans : lookupFile (updateFile files f
              { r with url := u, last_seen := now, page := page_num }) fu.1 = none := by
            rw [lookupFile_eq_none_iff, keysOf_updateFile, ← lookupFile_eq_none_iff]
            exact hlk
          have := ih (updateFile files f
              { r with url := u, last_seen := now, page := page_num })
            ⟨fu, hmem2, hef, htrans⟩
          simp only [upsertAll, if_neg he, upsert_index_entry, hl]
          simpa using this

/-- Core streak lemma: from page k with an incoming streak, m further quiet
pages (with streak + m equal to the threshold) make the loop process
exactly pages k..k+m-1 and stop for the streak reason. -/
theorem scanLoop_quiet_run (env : ScanEnv) (now : Timestamp) :
    ∀ (m : Nat) (st : ScanState) (k pages_no_new fuel : Nat),
      pages_no_new + m = MAX_PAGES_WITH_NO_NEW_PDFS → 1 ≤ m → m ≤ fuel →
      k + m ≤ MAX_PAGES_HARD_CAP + 1 →
      (∀ p, k ≤ p → p < k + m → ∀ fu ∈ env.pdfsOnPage p,
        extract_file_num fu.1 ≠ none → lookupFile st.files fu.1 ≠ none) →
      (scanLoop env now fuel st k pages_no_new).pagesProcessed = List.range' k m ∧
      (scanLoop env now fuel st k pages_no_new).reason = StopReason.streak_stop := by
  intro m
  induction m with
  | zero =>
    intro st k pn fuel hsum h1 hfuel hcap hq
    exact absurd h1 (by omega)
  | succ n ih =>
    intro st k pn fuel hsum h1 hfuel hcap hq
    obtain ⟨fl, rfl⟩ : ∃ fl, fuel = fl + 1 := ⟨fuel - 1, by omega⟩
    have hcapk : ¬ (MAX_PAGES_HARD_CAP < k) := by
      have : MAX_PAGES_HARD_CAP = 200000 := rfl
      omega
    have hqk : ∀ fu ∈ env.pdfsOnPage k, extract_file_num fu.1 ≠ none →
        lookupFile st.files fu.1 ≠ none :=
      fun fu hfu he => hq k (le_refl k) (by omega) fu hfu he
    obtain ⟨hcount, hkeys⟩ := upsertAll_quiet k now (env.pdfsOnPage k) st.files hqk
    rcases Nat.eq_zero_or_pos n with hn | hn
    · subst hn
      have hstop : MAX_PAGES_WITH_NO_NEW_PDFS ≤ pn + 1 := by
        have : MAX_PAGES_WITH_NO_NEW_PDFS = 6 := rfl
        omega
      refine ⟨?_, ?_⟩ <;>
        simp [scanLoop, if_neg hcapk, hcount, if_pos hstop, List.range']
    · have hnostop : ¬ (MAX_PAGES_WITH_NO_NEW_PDFS ≤ pn + 1) := by
        have : MAX_PAGES_WITH_NO_NEW_PDFS = 6 := rfl
        omega
      have hq2 : ∀ p, k + 1 ≤ p → p < (k + 1) + n → ∀ fu ∈ env.pdfsOnPage p,
          extract_file_num fu.1 ≠ none →
          lookupFile (upsertAll st.files k now (env.pdfsOnPage k)).1 fu.1 ≠ none := by
        intro p hp1 hp2 fu hfu he
        rw [Ne, lookupFile_eq_none_iff, hkeys, ← lookupFile_eq_none_iff]
        exact hq p (by omega) (by omega) fu hfu he
      have ihh := ih
        { files := (upsertAll st.files k now (env.pdfsOnPage k)).1
          resume_file := some k
          last_scan_page := k
          last_scan_at := some now }
        (k + 1) (pn + 1) fl (by omega) hn (by omega) (by omega) hq2
      refine ⟨?_, ?_⟩ <;>
        simp only [scanLoop, if_neg hcapk, hcount, eq_self_iff_true, if_true, ihh.1, ihh.2,
          List.range'_succ] <;>
        rw [if_neg hnostop]

/-- Claim C4: (a) starting a scan at page k, six consecutive pages
contributing zero new upserts make the scan process exactly pages k..k+5
and stop for the streak reason — not before, not after; (b) a page with at
least one new upsert resets the streak: from any incoming streak, a
productive page followed by six quiet pages yields exactly seven processed
pages. -/
theorem scan_stop_streak (env : ScanEnv) (now : Timestamp) (st : ScanState) (k : Nat)
    (hk : 1 ≤ k) (hcap : k + 6 ≤ MAX_PAGES_HARD_CAP + 1)
    (hquiet : ∀ p, k ≤ p → p < k + 6 → ∀ fu ∈ env.pdfsOnPage p,
      extract_file_num fu.1 ≠ none → lookupFile st.files fu.1 ≠ none) :
    ((scan_dataset_pages env now (some (Int.ofNat k)) st).pagesProcessed =
        List.range' k 6 ∧
      (scan_dataset_pages env now (some (Int.ofNat k)) st).reason =
        StopReason.streak_stop) ∧
    (∀ (st2 : ScanState) (k0 s fuel : Nat),
      7 ≤ fuel → k0 + 7 ≤ MAX_PAGES_HARD_CAP + 1 →
      (∃ fu ∈ env.pdfsOnPage k0, extract_file_num fu.1 ≠ none ∧
        lookupFile st2.files fu.1 = none) →
      (∀ p, k0 + 1 ≤ p → p < k0 + 7 → ∀ fu ∈ env.pdfsOnPage p,
        extract_file_num fu.1 ≠ none →
        lookupFile (upsertAll st2.files k0 now (env.pdfsOnPage k0)).1 fu.1 ≠ none) →
      (scanLoop env now fuel st2 k0 s).pagesProcessed = List.range' k0 7 ∧
      (scanLoop env now fuel st2 k0 s).reason = StopReason.streak_stop) := by
  constructor
  · have h1k : (1 : Int) ≤ Int.ofNat k := Int.ofNat_le.mpr hk
    have hne : ¬ ((Int.ofNat k : Int) = 0) := by
      intro h
      exact absurd (Int.ofNat.inj h) (by omega)
    have hstart : (start_page (load_resume_page (some (Int.ofNat k)))
        (Int.ofNat st.last_scan_page)).toNat = k := by
      simp only [load_resume_page, start_page, pyOrInt, if_pos h1k, if_neg hne]
      rfl
    simp only [scan_dataset_pages, hstart]
    exact scanLoop_quiet_run env now 6 st k 0 (MAX_PAGES_HARD_CAP + 1) rfl
      (by omega)
      (by have : MAX_PAGES_HARD_CAP = 200000 := rfl; omega)
      hcap hquiet
  · intro st2 k0 s fuel hfuel hcap0 hnew hq2
    obtain ⟨fl, rfl⟩ : ∃ fl, fuel = fl + 1 := ⟨fuel - 1, by omega⟩
    have hcapk0 : ¬ (MAX_PAGES_HARD_CAP < k0) := by
      have : MAX_PAGES_HARD_CAP = 200000 := rfl
      omega
    have hcnt : (upsertAll st2.files k0 now (env.pdfsOnPage k0)).2 ≠ 0 :=
      upsertAll_of_new k0 now (env.pdfsOnPage k0) st2.files hnew
    have hnostop : ¬ (MAX_PAGES_WITH_NO_NEW_PDFS ≤ 0) := by decide
    have ihh := scanLoop_quiet_run env now 6
      { files := (upsertAll st2.files k0 now (env.pdfsOnPage k0)).1
        resume_file := some k0
        last_scan_page := k0
        last_scan_at := some now }
      (k0 + 1) 0 fl rfl (by omega) (by omega) (by omega)
      (by
        intro p hp1 hp2 fu hfu he
        exact hq2 p (by omega) (by omega) fu hfu he)
    refine ⟨?_, ?_⟩ <;>
      simp only [scanLoop, if_neg hcapk0, if_neg hcnt, ihh.1, ihh.2, List.range'_succ] <;>
      rw [if_neg hnostop]

/-- Concrete instance of the stopping-heuristic theorem: an empty listing
starting at page 1 halts after processing exactly pages 1..6. -/
theorem scan_stop_streak_witness :
    (scan_dataset_pages ⟨fun _ => []⟩ 0 (some (Int.ofNat 1))
        ⟨[], none, 0, none⟩).pagesProcessed = List.range' 1 6 ∧
    (scan_dataset_pages ⟨fun _ => []⟩ 0 (some (Int.ofNat 1))
        ⟨[], none, 0, none⟩).reason = StopReason.streak_stop :=
  (scan_stop_streak ⟨fun _ => []⟩ 0 ⟨[], none, 0, none⟩ 1 (by decide)
    (by decide)
    (by intro p _ _ fu hfu; cases hfu)).1

/-- Claim C9: every processed page P contributes exactly the event triple
"write resume marker P, load page P with the persisted marker equal to P,
save index for P" — so the resume marker and index are persisted for every
single page, and the marker read while P is in flight is P; consequently a
resume file holding P makes the next invocation start at page P. -/
theorem resume_exactness (env : ScanEnv) (now : Timestamp) (fuel : Nat) (st : ScanState)
    (k s : Nat) :
    (scanLoop env now fuel st k s).trace =
      (scanLoop env now fuel st k s).pagesProcessed.flatMap
        (fun p => [ScanEvent.save_resume p, ScanEvent.fetch_page p (some p),
                   ScanEvent.save_index p]) ∧
    (∀ (P lsp : Int), 1 ≤ P → start_page (load_resume_page (some P)) lsp = P) := by
  constructor
  · induction fuel generalizing st k s with
    | zero => simp [scanLoop]
    | succ fl ih =>
      by_cases hcap : MAX_PAGES_HARD_CAP < k
      · simp [scanLoop, if_pos hcap]
      · simp only [scanLoop, if_neg hcap]
        by_cases hstop : MAX_PAGES_WITH_NO_NEW_PDFS ≤
            (if (upsertAll st.files k now (env.pdfsOnPage k)).2 = 0 then s + 1 else 0)
        · rw [if_pos hstop]
          simp
        · rw [if_neg hstop]
          simp only [List.flatMap_cons]
          rw [ih]
  · intro P lsp hP
    have hne : ¬ (P = 0) := by omega
    simp [load_resume_page, start_page, pyOrInt, if_pos hP, hne]

/-- Concrete instance of the resume-exactness theorem: a marker of 9 makes
the next invocation start at page 9 even with last-scanned-page 2. -/
theorem resume_exactness_witness :
    start_page (load_resume_page (some 9)) 2 = 9 :=
  (resume_exactness ⟨fun _ => []⟩ 0 0 ⟨[], none, 0, none⟩ 1 0).2 9 2 (by decide)

-- ==================== Download protocol (download_one) ====================

/-- The local output directory as an association list from path to byte
content. -/
abbrev FileSys := List (String × List Nat)

/-- `os.path.exists` / read: the content stored at a path, if any. -/
def fsLookup : FileSys → String → Option (List Nat)
  | [], _ => none
  | (p, b) :: rest, q => if p = q then some b else fsLookup rest q

/-- `os.remove` (ignoring a missing file, as the source wraps it in
try/except): drop the entry at the path. -/
def fsRemove : FileSys → String → FileSys
  | [], _ => []
  | (q, b) :: rest, p => if q = p then fsRemove rest p else (q, b) :: fsRemove rest p

/-- `open(path, "wb").write(body)`: the path now holds exactly `body`. -/
def fsWrite (fs : FileSys) (p : String) (b : List Nat) : FileSys :=
  (p, b) :: fsRemove fs p

/-- `os.replace(src, dst)`: atomically move the content at `src` onto
`dst` (the source call sites guarantee `src` exists). -/
def fsReplace (fs : FileSys) (src dst : String) : FileSys :=
  match fsLookup fs src with
  | none => fs
  | some b => fsWrite (fsRemove fs src) dst b

/-- Result of `download_one`. -/
structure DownloadResult where
  fs : FileSys
  ok : Bool
  err : String
deriving Repr, DecidableEq

/-- `download_one` (doj_2026.py lines 271-293): discard any stale
`out_path + ".part"`, fetch, and only on status 200 write the body to the
part path and atomically rename it onto the destination; any other status
changes nothing further and reports `HTTP <status>`. -/
def download_one (fs : FileSys) (status : Nat) (body : List Nat)
    (out_path : String) : DownloadResult :=
  let part_path := out_path ++ ".part"
  let fs1 := fsRemove fs part_path
  if status = 200 then
    let fs2 := fsWrite fs1 part_path body
    let fs3 := fsReplace fs2 part_path out_path
    ⟨fs3, true, ""⟩
  else
    ⟨fs1, false, "HTTP " ++ toString status⟩

theorem fsLookup_fsRemove_self (fs : FileSys) (p : String) :
    fsLookup (fsRemove fs p) p = none := by
  induction fs with
  | nil => rfl
  | cons e rest ih =>
    obtain ⟨q, b⟩ := e
    by_cases h : q = p
    · simpa [fsRemove, h] using ih
    · simp [fsRemove, fsLookup, h, ih]

theorem fsLookup_fsRemove_ne (fs : FileSys) (p q : String) (h : q ≠ p) :
    fsLookup (fsRemove fs p) q = fsLookup fs q := by
  induction fs with
  | nil => rfl
  | cons e rest ih =>
    obtain ⟨x, b⟩ := e
    by_cases hx : x = p
    · subst hx
      simp [fsRemove, fsLookup, Ne.symm h, ih]
    · by_cases hq : x = q
      · simp [fsRemove, fsLookup, hx, hq, h]
      · simp [fsRemove, fsLookup, hx, hq, ih]

theorem fsRemove_fsRemove (fs : FileSys) (p : String) :
    fsRemove (fsRemove fs p) p = fsRemove fs p := by
  induction fs with
  | nil => rfl
  | cons e rest ih =>
    obtain ⟨q, b⟩ := e
    by_cases h : q = p
    · simp [fsRemove, h, ih]
    · simp [fsRemove, h, ih]

theorem fsRemove_fsWrite_self (fs : FileSys) (p : String) (b : List Nat) :
    fsRemove (fsWrite fs p b) p = fsRemove fs p := by
  simp [fsWrite, fsRemove, fsRemove_fsRemove]

theorem fsLookup_fsWrite_self (fs : FileSys) (p : String) (b : List Nat) :
    fsLookup (fsWrite fs p b) p = some b := by
  simp [fsWrite, fsLookup]

theorem fsLookup_fsWrite_ne (fs : FileSys) (p q : String) (b : List Nat) (h : q ≠ p) :
    fsLookup (fsWrite fs p b) q = fsLookup fs q := by
  simp only [fsWrite, fsLookup, if_neg (Ne.symm h)]
  exact fsLookup_fsRemove_ne fs p q h

theorem fsReplace_eq (fs : FileSys) (src dst : String) (b : List Nat)
    (h : fsLookup fs src = some b) :
    fsReplace fs src dst = fsWrite (fsRemove fs src) dst b := by
  simp [fsReplace, h]

theorem ne_part_path (s : String) : s ≠ s ++ ".part" := by
  intro h
  have hlen := congrArg String.length h
  rw [String.length_append] at hlen
  have h5 : String.length ".part" = 5 := rfl
  omega

/-- Claim C7: the download protocol never leaves a partial artifact: on
status 200 the destination ends up holding exactly the fetched body; on any
other status the destination is untouched and the call reports failure; in
either case no `.part` temporary survives; and a stale temporary left by an
interrupted earlier attempt has no effect on the outcome. -/
theorem download_atomic (fs : FileSys) (status : Nat) (body : List Nat)
    (out_path : String) :
    (status = 200 →
      fsLookup (download_one fs status body out_path).fs out_path = some body ∧
      (download_one fs status body out_path).ok = true) ∧
    (status ≠ 200 →
      fsLookup (download_one fs status body out_path).fs out_path =
        fsLookup fs out_path ∧
      (download_one fs status body out_path).ok = false ∧
      (download_one fs status body out_path).err = "HTTP " ++ toString status) ∧
    fsLookup (download_one fs status body out_path).fs (out_path ++ ".part") = none ∧
    (∀ junk : List Nat,
      download_one (fsWrite fs (out_path ++ ".part") junk) status body out_path =
        download_one fs status body out_path) := by
  have hne : out_path ≠ out_path ++ ".part" := ne_part_path out_path
  have hrepl : fsReplace
      (fsWrite (fsRemove fs (out_path ++ ".part")) (out_path ++ ".part") body)
      (out_path ++ ".part") out_path =
      fsWrite (fsRemove (fsWrite (fsRemove fs (out_path ++ ".part"))
        (out_path ++ ".part") body) (out_path ++ ".part")) out_path body :=
    fsReplace_eq _ _ _ _ (fsLookup_fsWrite_self _ _ _)
  refine ⟨?_, ?_, ?_, ?_⟩
  · intro h200
    subst h200
    refine ⟨?_, rfl⟩
    simp only [download_one, if_pos rfl, hrepl]
    exact fsLookup_fsWrite_self _ _ _
  · intro hs
    refine ⟨?_, ?_, ?_⟩
    · simp only [download_one, if_neg hs]
      exact fsLookup_fsRemove_ne fs _ _ hne
    · simp [download_one, if_neg hs]
    · simp [download_one, if_neg hs]
  · by_cases hs : status = 200
    · subst hs
      simp only [download_one, eq_self_iff_true, if_true, hrepl]
      rw [fsLookup_fsWrite_ne _ _ _ _ (Ne.symm hne)]
      exact fsLookup_fsRemove_self _ _
    · simp only [download_one, if_neg hs]
      exact fsLookup_fsRemove_self _ _
  · intro junk
    simp only [download_one, fsRemove_fsWrite_self]

/-- Concrete instance of the atomic-download theorem. -/
theorem download_atomic_witness :
    fsLookup (download_one [] 200 [7, 8] "EFTA00000005.pdf").fs "EFTA00000005.pdf" =
      some [7, 8] ∧
    (download_one [] 200 [7, 8] "EFTA00000005.pdf").ok = true ∧
    fsLookup (download_one [] 404 [] "EFTA00000005.pdf").fs "EFTA00000005.pdf" = none := by
  have hok := (download_atomic [] 200 [7, 8] "EFTA00000005.pdf").1 rfl
  have hbad := ((download_atomic [] 404 [] "EFTA00000005.pdf").2.1 (by decide)).1
  exact ⟨hok.1, hok.2, hbad⟩

-- ==================== Run orchestrator ====================

/-- Observable outcome of one dataset's body (context creation, scan,
download — doj_2026.py lines 462-471): success or an exception, together
with the in-memory index at the moment the body finished or failed. -/
structure DatasetRun where
  outcome : Except String Unit
  finalIdx : IndexFiles

/-- Persistence and control effects of the orchestrator. -/
inductive OrchEvent
  | save_index (dataset : Nat) (idx : IndexFiles)
  | dataset_done (dataset : Nat)
  | dataset_failed (dataset : Nat) (err : String)
deriving Repr, DecidableEq

/-- The dataset an orchestrator event belongs to. -/
def eventDataset : OrchEvent → Nat
  | .save_index d _ => d
  | .dataset_done d => d
  | .dataset_failed d _ => d

/-- `process_dataset` (doj_2026.py lines 442-491): run the body; on success
save the final index (line 474); on an exception make a best-effort index
save (lines 479-482) and re-raise (line 483). -/
def process_dataset (behavior : Nat → DatasetRun) (d : Nat) :
    List OrchEvent × Except String Unit :=
  match (behavior d).outcome with
  | Except.ok _ =>
      ([.save_index d (behavior d).finalIdx, .dataset_done d], Except.ok ())
  | Except.error e =>
      ([.save_index d (behavior d).finalIdx, .dataset_failed d e], Except.error e)

/-- The dataset loop in `main` (doj_2026.py lines 565-566): datasets are
processed in order; an exception from `process_dataset` propagates out of
the loop, which has no handler of its own. -/
def main_loop (behavior : Nat → DatasetRun) :
    List Nat → List OrchEvent × Except String Unit
  | [] => ([], Except.ok ())
  | d :: rest =>
      match process_dataset behavior d with
      | (evs, Except.ok _) =>
          let r := main_loop behavior rest
          (evs ++ r.1, r.2)
      | (evs, Except.error e) => (evs, Except.error e)

/-- A run in which dataset 1 raises and every other dataset would succeed. -/
def bhvFatal : Nat → DatasetRun := fun d =>
  if d = 1 then ⟨Except.error "boom", []⟩ else ⟨Except.ok (), []⟩

/-- Claim C5 counterexample: with datasets [1, 2] selected and dataset 1
failing, the failure propagates out of the loop and dataset 2 is never
attempted — no event concerns it. -/
theorem orchestrator_abort_counterexample :
    (main_loop bhvFatal [1, 2]).1 =
      [OrchEvent.save_index 1 [], OrchEvent.dataset_failed 1 "boom"] ∧
    (main_loop bhvFatal [1, 2]).2 = Except.error "boom" ∧
    ∀ ev ∈ (main_loop bhvFatal [1, 2]).1, eventDataset ev ≠ 2 := by
  refine ⟨rfl, rfl, ?_⟩
  intro ev hev
  fin_cases hev <;> decide

/-- Claim C5 as amended: when a dataset's processing fails after any number
of successful ones, the orchestrator still performs the best-effort index
save for the failing dataset, then the error propagates and aborts the
whole run: every emitted event belongs to the earlier datasets or the
failing one, and the datasets after it are never attempted. -/
theorem orchestrator_fatal_save_abort (behavior : Nat → DatasetRun) (pre : List Nat)
    (d : Nat) (rest : List Nat) (e : String)
    (hpre : ∀ p ∈ pre, (behavior p).outcome = Except.ok ())
    (hfail : (behavior d).outcome = Except.error e) :
    (main_loop behavior (pre ++ d :: rest)).2 = Except.error e ∧
    OrchEvent.save_index d (behavior d).finalIdx ∈
      (main_loop behavior (pre ++ d :: rest)).1 ∧
    OrchEvent.dataset_failed d e ∈ (main_loop behavior (pre ++ d :: rest)).1 ∧
    (∀ ev ∈ (main_loop behavior (pre ++ d :: rest)).1, eventDataset ev ∈ pre ++ [d]) := by
  induction pre with
  | nil =>
    simp [main_loop, process_dataset, hfail, eventDataset]
  | cons p ps ih =>
    have hp : (behavior p).outcome = Except.ok () :=
      hpre p (List.mem_cons_self _ _)
    have ihh := ih fun q hq => hpre q (List.mem_cons_of_mem _ hq)
    simp only [List.cons_append, main_loop, process_dataset, hp, List.nil_append]
    refine ⟨ihh.1, ?_, ?_, ?_⟩
    · exact List.mem_cons_of_mem _ (List.mem_cons_of_mem _ ihh.2.1)
    · exact List.mem_cons_of_mem _ (List.mem_cons_of_mem _ ihh.2.2.1)
    · intro ev hev
      rcases List.mem_cons.mp hev with h1 | h1
      · subst h1
        simp [eventDataset]
      · rcases List.mem_cons.mp h1 with h2 | h2
        · subst h2
          simp [eventDataset]
        · have hev2 := ihh.2.2.2 ev h2
          simp only [List.cons_append, List.mem_cons] at hev2 ⊢
          tauto

/-- Concrete instance of the amended orchestrator theorem. -/
theorem orchestrator_fatal_save_abort_witness :
    (main_loop bhvFatal [1, 2]).2 = Except.error "boom" ∧
    OrchEvent.save_index 1 [] ∈ (main_loop bhvFatal [1, 2]).1 := by
  have h := orchestrator_fatal_save_abort bhvFatal [] 1 [2] "boom"
    (by intro p hp; cases hp) rfl
  exact ⟨h.1, h.2.1⟩
